import Mathlib

/-!
# A scoring service over HTTP: `server.go`

A shallow embedding of `server.go` (package `main`): the `Player` record, the
`PlayerStore` interface, the `PlayerServer` with its four handler methods and the
route table that `NewPlayerServer` builds.

Conventions of the embedding.

* Go strings are Lean `String`s (sequences of Unicode scalar values); Go `int` is
  `Int`. The handlers perform no arithmetic on scores, they only compare with zero
  and print.
* A Go slice `[]T` is an `Option (List T)`: `none` is the nil slice, which
  `encoding/json` prints differently from an empty one.
* The store is an interface value over a state type `σ`; the server threads the
  store state explicitly and keeps a journal of the store calls it made.
* The pieces of the Go standard library the handlers call (`http.ResponseWriter`,
  `http.ServeMux`, `strings.TrimPrefix`, `fmt.Fprint`, `encoding/json`) are
  modelled by the definitions of the section that bears their name, following
  the documented behaviour of the library.
-/

namespace JsonRouting

/-! ## `strings` -/

/-- Go `strings.HasPrefix(s, pre)`. -/
def HasPrefix (s pre : String) : Bool :=
  pre.data.isPrefixOf s.data

/-- Go `strings.TrimPrefix(s, pre)`: `s` without the leading `pre`, or `s` itself
when `s` does not start with `pre`. -/
def TrimPrefix (s pre : String) : String :=
  if HasPrefix s pre then String.mk (s.data.drop pre.data.length) else s

/-! ## `strconv` / `fmt` -/

/-- Go `strconv.FormatInt(i, 10)`: the decimal text of `i`, with a leading minus
sign for a negative number. It is what `fmt.Fprint` writes for an `int` and what
`encoding/json` writes for an integer field. -/
def FormatInt (i : Int) : String :=
  match i with
  | Int.ofNat n => String.mk (Nat.toDigits 10 n)
  | Int.negSucc n => String.mk ('-' :: Nat.toDigits 10 (n + 1))

/-! ## The data model of `server.go` -/

/-- The constant `jsonContentType`. -/
def jsonContentType : String := "application/json"

/-- The struct `Player`. -/
structure Player where
  Name : String
  Wins : Int
deriving DecidableEq, Repr

/-- The interface `PlayerStore`, over the store state `σ`. `GetPlayerScore` and
`GetLeague` observe the state; `RecordWin` has no result and changes it. -/
structure PlayerStore (σ : Type) where
  GetPlayerScore : σ → String → Int
  RecordWin : σ → String → σ
  GetLeague : σ → Option (List Player)

/-- One call of a method of the store. -/
inductive StoreCall where
  | GetPlayerScore (name : String)
  | RecordWin (name : String)
  | GetLeague
deriving DecidableEq, Repr

/-- The struct `PlayerServer`: the field `store`, the current state of the store
behind it, and the journal of the store calls made so far (oldest first). The
embedded `http.Handler` is the route table, see `PlayerServer.ServeHTTP`. -/
structure PlayerServer (σ : Type) where
  store : PlayerStore σ
  state : σ
  calls : List StoreCall

/-- The call `p.store.GetPlayerScore(name)`. -/
def PlayerServer.callGetPlayerScore {σ : Type} (p : PlayerServer σ) (name : String) :
    Int × PlayerServer σ :=
  (p.store.GetPlayerScore p.state name,
    { p with calls := p.calls ++ [StoreCall.GetPlayerScore name] })

/-- The call `p.store.RecordWin(name)`. -/
def PlayerServer.callRecordWin {σ : Type} (p : PlayerServer σ) (name : String) :
    PlayerServer σ :=
  { p with state := p.store.RecordWin p.state name,
           calls := p.calls ++ [StoreCall.RecordWin name] }

/-- The call `p.store.GetLeague()`. -/
def PlayerServer.callGetLeague {σ : Type} (p : PlayerServer σ) :
    Option (List Player) × PlayerServer σ :=
  (p.store.GetLeague p.state, { p with calls := p.calls ++ [StoreCall.GetLeague] })

/-! ## `net/http`: requests, status codes, the response writer -/

/-- The part of `*http.Request` the server reads: `r.Method` and `r.URL.Path`
(`r.URL.RawPath` is empty, as for a request line whose path has no escapes). -/
structure Request where
  Method : String
  Path : String
deriving DecidableEq, Repr

def MethodGet : String := "GET"
def MethodPost : String := "POST"
def MethodConnect : String := "CONNECT"
def StatusOK : Nat := 200
def StatusAccepted : Nat := 202
def StatusMovedPermanently : Nat := 301
def StatusNotFound : Nat := 404

/-- An `http.ResponseWriter`, with the behaviour of `httptest.ResponseRecorder`
(and of the server's own writer): `header` is the map `w.Header()`; the first
`WriteHeader` fixes `Code` and takes the snapshot `sent` of the header map, later
calls are ignored; a `Write` before any `WriteHeader` implies `WriteHeader(200)`.
The content type that a first `Write` sniffs from the body when the handler has
set none is not modelled: the header fields say what the handler itself set. -/
structure ResponseWriter where
  header : List (String × String)
  wroteHeader : Bool
  Code : Nat
  sent : List (String × String)
  Body : String
deriving DecidableEq, Repr

/-- Go `httptest.NewRecorder()`: nothing written yet, `Code` is 200. -/
def NewRecorder : ResponseWriter :=
  { header := [], wroteHeader := false, Code := 200, sent := [], Body := "" }

/-- ASCII upper case of a byte of a header key. -/
def upperByte (c : Char) : Char :=
  if 'a' ≤ c ∧ c ≤ 'z' then Char.ofNat (c.toNat - 32) else c

/-- ASCII lower case of a byte of a header key. -/
def lowerByte (c : Char) : Char :=
  if 'A' ≤ c ∧ c ≤ 'Z' then Char.ofNat (c.toNat + 32) else c

/-- The loop of Go `textproto.CanonicalMIMEHeaderKey`: upper case for the first
letter and for a letter after a dash, lower case elsewhere. -/
def canonicalLoop : Bool → List Char → List Char
  | _, [] => []
  | upper, c :: cs =>
    let d := if upper then upperByte c else lowerByte c
    d :: canonicalLoop (d = '-') cs

/-- A byte allowed in a header field name (an RFC 7230 token character). -/
def validHeaderFieldByte (c : Char) : Bool :=
  c.isAlphanum || "!#$%&*+-.^_|~".data.contains c || c.toNat = 39 || c.toNat = 96

/-- Go `textproto.CanonicalMIMEHeaderKey`: a key that is not a token is left
unchanged. -/
def CanonicalMIMEHeaderKey (key : String) : String :=
  if key.data.all validHeaderFieldByte then String.mk (canonicalLoop true key.data) else key

/-- Go `Header.Get`: the value stored under the canonical form of `key`. -/
def headerGet (h : List (String × String)) (key : String) : Option String :=
  h.lookup (CanonicalMIMEHeaderKey key)

/-- Go `w.Header().Set(key, value)`: replaces what is stored under the canonical
form of `key`. -/
def ResponseWriter.HeaderSet (w : ResponseWriter) (key value : String) : ResponseWriter :=
  { w with header :=
      (CanonicalMIMEHeaderKey key, value) ::
        w.header.filter (fun e => e.1 ≠ CanonicalMIMEHeaderKey key) }

/-- Go `w.WriteHeader(code)`. -/
def ResponseWriter.WriteHeader (w : ResponseWriter) (code : Nat) : ResponseWriter :=
  if w.wroteHeader then w
  else { w with wroteHeader := true, Code := code, sent := w.header }

/-- Go `w.Write(b)`. -/
def ResponseWriter.Write (w : ResponseWriter) (b : String) : ResponseWriter :=
  let w1 := w.WriteHeader StatusOK
  { w1 with Body := w1.Body ++ b }

/-- Go `fmt.Fprint(w, score)` for an `int`: one `Write` of its decimal text. -/
def Fprint (w : ResponseWriter) (score : Int) : ResponseWriter :=
  w.Write (FormatInt score)

/-! ## `encoding/json`: the encoding of a `[]Player` -/

/-- The table `hex` of `encoding/json`. -/
def hexChar (n : Nat) : Char :=
  "0123456789abcdef".data.getD n '0'

/-- The table `htmlSafeSet` of `encoding/json`, for a byte below 0x80: printable
ASCII apart from the double quote, the backslash, `<`, `>` and `&`. -/
def htmlSafe (c : Char) : Bool :=
  32 ≤ c.toNat && c ≠ '"' && c ≠ '\\' && c ≠ '<' && c ≠ '>' && c ≠ '&'

/-- One step of the loop of `appendString` (with `escapeHTML`, the default of
`json.NewEncoder`): the text written for one character of the string. The short
forms for backspace and form feed are those of Go 1.22 and later; before, the
two were written `\u0008` and `\u000c`. -/
def escapeChar (c : Char) : List Char :=
  if c.toNat < 128 then
    if htmlSafe c then [c]
    else if c = '\\' ∨ c = '"' then ['\\', c]
    else if c = '\x08' then ['\\', 'b']
    else if c = '\x0c' then ['\\', 'f']
    else if c = '\n' then ['\\', 'n']
    else if c = '\r' then ['\\', 'r']
    else if c = '\t' then ['\\', 't']
    else ['\\', 'u', '0', '0', hexChar (c.toNat / 16), hexChar (c.toNat % 16)]
  else if c = '\u2028' ∨ c = '\u2029' then
    ['\\', 'u', '2', '0', '2', hexChar (c.toNat % 16)]
  else [c]

/-- The characters of a string, each escaped. -/
def escapeChars : List Char → List Char
  | [] => []
  | c :: cs => escapeChar c ++ escapeChars cs

/-- Go `appendString`: a JSON string literal. -/
def appendString (s : String) : List Char :=
  '"' :: (escapeChars s.data ++ ['"'])

/-- The JSON object written for a `Player`: the struct has no field tags, so the
keys are the Go field names `Name` and `Wins`, in declaration order. -/
def encodePlayer (p : Player) : List Char :=
  "\x7b\"Name\":".data ++ appendString p.Name ++ ",\"Wins\":".data ++
    (FormatInt p.Wins).data ++ "\x7d".data

/-- The elements of a JSON array, separated by commas. -/
def encodeElems : List Player → List Char
  | [] => []
  | [p] => encodePlayer p
  | p :: q :: ps => encodePlayer p ++ ',' :: encodeElems (q :: ps)

/-- Go `json.Marshal` of a `[]Player`: `null` for the nil slice, else an array. -/
def Marshal (league : Option (List Player)) : List Char :=
  match league with
  | none => "null".data
  | some ps => '[' :: (encodeElems ps ++ [']'])

/-- Go `json.NewEncoder(w).Encode(league)`: one `Write` of the JSON text followed
by a newline. -/
def Encode (w : ResponseWriter) (league : Option (List Player)) : ResponseWriter :=
  w.Write (String.mk (Marshal league ++ ['\n']))

/-! ## The handlers of `server.go` -/

/-- The method `leagueHandler`. -/
def PlayerServer.leagueHandler {σ : Type} (p : PlayerServer σ) (w : ResponseWriter)
    (_r : Request) : PlayerServer σ × ResponseWriter :=
  let w1 := w.HeaderSet "content-type" jsonContentType
  let lp := p.callGetLeague
  let w2 := Encode w1 lp.1
  (lp.2, w2.WriteHeader StatusOK)

/-- The method `showScore`. -/
def PlayerServer.showScore {σ : Type} (p : PlayerServer σ) (w : ResponseWriter)
    (player : String) : PlayerServer σ × ResponseWriter :=
  let sp := p.callGetPlayerScore player
  let w1 := if sp.1 = 0 then w.WriteHeader StatusNotFound else w
  (sp.2, Fprint w1 sp.1)

/-- The method `processWin`. -/
def PlayerServer.processWin {σ : Type} (p : PlayerServer σ) (w : ResponseWriter)
    (player : String) : PlayerServer σ × ResponseWriter :=
  (p.callRecordWin player, w.WriteHeader StatusAccepted)

/-- The method `playersHandler`. -/
def PlayerServer.playersHandler {σ : Type} (p : PlayerServer σ) (w : ResponseWriter)
    (r : Request) : PlayerServer σ × ResponseWriter :=
  let player := TrimPrefix r.Path "/players/"
  if r.Method = MethodPost then p.processWin w player
  else if r.Method = MethodGet then p.showScore w player
  else (p, w)

/-! ## `path.Clean` and the route table (`http.ServeMux`)

`NewPlayerServer` registers two patterns on a fresh `http.ServeMux`, `/league` (a
fixed path) and `/players/` (a subtree), and makes the mux the embedded
`http.Handler`: every request goes through `(*ServeMux).ServeHTTP`. The package
documentation of `net/http` says of it: "ServeMux also takes care of sanitizing
the URL request path and the Host header, stripping the port number and
redirecting any request containing . or .. elements or repeated slashes to an
equivalent, cleaner URL." In `(*ServeMux).Handler` this is the comparison of
`cleanPath(r.URL.Path)` with `r.URL.Path`: when they differ the mux answers with
`RedirectHandler(cleanedPath, StatusMovedPermanently)` and no registered handler
runs. `CONNECT` requests are not sanitised. -/

/-- The elements of a path, split at each slash. -/
def splitSlash : List Char → List (List Char)
  | [] => [[]]
  | c :: cs =>
    if c = '/' then [] :: splitSlash cs
    else
      match splitSlash cs with
      | [] => [[c]]
      | e :: es => (c :: e) :: es

/-- The rules of Go `path.Clean` on the elements of a rooted path: an empty
element and `.` are dropped, `..` removes the element kept before it (and is
dropped at the root). `kept` holds the elements kept so far, last first. -/
def cleanElems : List (List Char) → List (List Char) → List (List Char)
  | kept, [] => kept.reverse
  | kept, e :: es =>
    if e = [] ∨ e = ['.'] then cleanElems kept es
    else if e = ['.', '.'] then cleanElems kept.tail es
    else cleanElems (e :: kept) es

/-- The elements of a rooted path, each behind a slash. -/
def joinElems : List (List Char) → List Char
  | [] => []
  | e :: es => '/' :: (e ++ joinElems es)

/-- Go `path.Clean(p)` for a rooted path `p`. -/
def Clean (p : List Char) : List Char :=
  match cleanElems [] (splitSlash p) with
  | [] => ['/']
  | e :: es => joinElems (e :: es)

/-- The function `cleanPath` of `net/http`: the canonical form of a request path.
The path is rooted, cleaned with `path.Clean`, and keeps a trailing slash. -/
def cleanPath (p : String) : String :=
  if p = "" then "/"
  else
    let p1 := if p.data.head? = some '/' then p.data else '/' :: p.data
    let np := Clean p1
    if p1.getLast? = some '/' ∧ np ≠ ['/'] then String.mk (np ++ ['/']) else String.mk np

/-- What the mux selects for a request. -/
inductive Route where
  | leagueHandler
  | playersHandler
  | redirect (url : String)
  | notFound
deriving DecidableEq, Repr

/-- The method `match` of the mux built by `NewPlayerServer`: `/league` matches
that path only, `/players/` matches every path that starts with it. -/
def ServeMux.handler (path : String) : Route :=
  if path = "/league" then Route.leagueHandler
  else if HasPrefix path "/players/" then Route.playersHandler
  else Route.notFound

/-- The patterns registered by `NewPlayerServer`. -/
def ServeMux.registered (pattern : String) : Bool :=
  pattern = "/league" || pattern = "/players/"

/-- The rule of the mux for a subtree requested without its trailing slash: the
path is not registered itself, and the path followed by a slash is. -/
def ServeMux.shouldRedirect (path : String) : Bool :=
  if ServeMux.registered path then false
  else if path = "" then false
  else if ServeMux.registered (path ++ "/") then path.data.getLast? ≠ some '/'
  else false

/-- The method `Handler` of the mux built by `NewPlayerServer`. -/
def ServeMux.Handler (r : Request) : Route :=
  if r.Method = MethodConnect then
    if ServeMux.shouldRedirect r.Path then Route.redirect (r.Path ++ "/")
    else ServeMux.handler r.Path
  else
    let path := cleanPath r.Path
    if ServeMux.shouldRedirect path then Route.redirect (path ++ "/")
    else if path ≠ r.Path then Route.redirect path
    else ServeMux.handler r.Path

/-- Go `http.StatusText`, for the codes this server sends. -/
def StatusText (code : Nat) : String :=
  if code = 200 then "OK"
  else if code = 202 then "Accepted"
  else if code = 301 then "Moved Permanently"
  else if code = 404 then "Not Found"
  else ""

/-- The function `htmlEscape` of `net/http`. -/
def htmlEscape : List Char → List Char
  | [] => []
  | c :: cs =>
    (if c = '&' then "&amp;".data
     else if c = '<' then "&lt;".data
     else if c = '>' then "&gt;".data
     else if c = '"' then "&#34;".data
     else if c.toNat = 39 then "&#39;".data
     else [c]) ++ htmlEscape cs

/-- Go `http.Redirect(w, r, url, code)` for a rooted, clean `url`: the `Location`
header, the status, and for a GET the short HTML note. The mux passes the clean
path percent-escaped by `url.URL.String`; that escaping is the identity on a path
of unreserved characters and slashes and is not modelled. -/
def Redirect (w : ResponseWriter) (r : Request) (url : String) (code : Nat) : ResponseWriter :=
  let hadCT := (w.header.lookup "Content-Type").isSome
  let w1 := w.HeaderSet "Location" url
  let w2 :=
    if !hadCT && (r.Method = "GET" || r.Method = "HEAD") then
      w1.HeaderSet "Content-Type" "text/html; charset=utf-8"
    else w1
  let w3 := w2.WriteHeader code
  if !hadCT && r.Method = "GET" then
    w3.Write ("<a href=\"" ++ String.mk (htmlEscape url.data) ++ "\">" ++ StatusText code ++
      "</a>.\n" ++ "\n")
  else w3

/-- Go `http.NotFound(w, r)`. -/
def NotFound (w : ResponseWriter) : ResponseWriter :=
  ((((w.HeaderSet "Content-Type" "text/plain; charset=utf-8").HeaderSet
    "X-Content-Type-Options" "nosniff").WriteHeader StatusNotFound).Write
    "404 page not found\n")

/-- The method `ServeHTTP` that `PlayerServer` gets from the embedded
`http.Handler`, the router built in `NewPlayerServer`. The status of the redirect
of the mux is 301 Moved Permanently here; releases of Go differ on it (recent ones
send 307 Temporary Redirect), not on the redirect itself. -/
def PlayerServer.ServeHTTP {σ : Type} (p : PlayerServer σ) (w : ResponseWriter)
    (r : Request) : PlayerServer σ × ResponseWriter :=
  match ServeMux.Handler r with
  | Route.leagueHandler => p.leagueHandler w r
  | Route.playersHandler => p.playersHandler w r
  | Route.redirect url => (p, Redirect w r url StatusMovedPermanently)
  | Route.notFound => (p, NotFound w)

/-- The function `NewPlayerServer`: a server around `store`, whose state is
`state`, that has made no call yet. -/
def NewPlayerServer {σ : Type} (store : PlayerStore σ) (state : σ) : PlayerServer σ :=
  { store := store, state := state, calls := [] }

/-- A store that holds one fixed league and no win, as a stub in a test. -/
def fixedStore (league : Option (List Player)) : PlayerStore Unit where
  GetPlayerScore := fun _ _ => 0
  RecordWin := fun _ _ => ()
  GetLeague := fun _ => league

/-! ## Sequences of requests -/

/-- The server after it has served the requests in turn, each with a fresh
recorder as the integration test does. -/
def serveAll {σ : Type} (p : PlayerServer σ) : List Request → PlayerServer σ
  | [] => p
  | r :: rs => serveAll (p.ServeHTTP NewRecorder r).1 rs

/-- The request of the test helper `newPostWinRequest(name)`. -/
def newPostWinRequest (name : String) : Request :=
  ⟨MethodPost, "/players/" ++ name⟩

/-- The request of the test helper `newGetScoreRequest(name)`. -/
def newGetScoreRequest (name : String) : Request :=
  ⟨MethodGet, "/players/" ++ name⟩

/-- The request of the test helper `newLeagueRequest()`. -/
def newLeagueRequest : Request :=
  ⟨MethodGet, "/league"⟩

/-! ## The store contract -/

/-- The state of a store after `RecordWin` was called for each of `names` in turn. -/
def recordAll {σ : Type} (S : PlayerStore σ) (s : σ) (names : List String) : σ :=
  names.foldl S.RecordWin s

/-- The elements of a slice: none for the nil slice. -/
def elems (league : Option (List Player)) : List Player :=
  league.getD []

/-- Modelled from the spec: the contract of a `PlayerStore` that starts in the
state `empty` (sections 3, 4.1 and 8); no implementation of the interface is
among the source files. A name with no recorded win has score zero; `RecordWin`
adds exactly one to the score of its name and leaves the other scores alone;
after any wins recorded from the empty store, `GetLeague` has no two entries with
the same name, and its entries are exactly the players with a recorded win, each
with its current score. -/
structure StoreContract {σ : Type} (S : PlayerStore σ) (empty : σ) : Prop where
  score_empty : ∀ n, S.GetPlayerScore empty n = 0
  score_record : ∀ s n, S.GetPlayerScore (S.RecordWin s n) n = S.GetPlayerScore s n + 1
  score_other : ∀ s n m, m ≠ n → S.GetPlayerScore (S.RecordWin s n) m = S.GetPlayerScore s m
  league_nodup : ∀ names,
    ((elems (S.GetLeague (recordAll S empty names))).map Player.Name).Nodup
  league_mem : ∀ names q, q ∈ elems (S.GetLeague (recordAll S empty names)) ↔
    (q.Name ∈ names ∧ q.Wins = S.GetPlayerScore (recordAll S empty names) q.Name)

/-- The win count of `name` in a list of players: zero when it has no entry. -/
def scoreOf : List Player → String → Int
  | [], _ => 0
  | q :: qs, name => if q.Name = name then q.Wins else scoreOf qs name

/-- One more win for `name`: its entry is incremented, or created with one win
behind the others. -/
def addWin : List Player → String → List Player
  | [], name => [⟨name, 1⟩]
  | q :: qs, name =>
    if q.Name = name then ⟨q.Name, q.Wins + 1⟩ :: qs else q :: addWin qs name

/-- Modelled from the spec: the store `NewInMemoryPlayerStore()` of the
integration test, which is not among the source files. It keeps one entry per
player with a recorded win, in the order of the first wins, as section 4.1
describes the three operations. -/
def InMemoryPlayerStore : PlayerStore (List Player) where
  GetPlayerScore := scoreOf
  RecordWin := addWin
  GetLeague := fun s => some s

/-- The empty store `NewInMemoryPlayerStore()`. -/
def NewInMemoryPlayerStore : List Player := []

/-! ## `encoding/json`: reading a `[]Player` back -/

/-- The value of a hexadecimal digit. -/
def hexVal (c : Char) : Option Nat :=
  if '0' ≤ c ∧ c ≤ '9' then some (c.toNat - 48)
  else if 'a' ≤ c ∧ c ≤ 'f' then some (c.toNat - 87)
  else if 'A' ≤ c ∧ c ≤ 'F' then some (c.toNat - 55)
  else none

/-- The character of the escape `\uXXXX`; half of a surrogate pair is not read. -/
def hex4 (a b c d : Char) : Option Char :=
  (hexVal a).bind fun x => (hexVal b).bind fun y => (hexVal c).bind fun z =>
    (hexVal d).bind fun t =>
      if 55296 ≤ ((x * 16 + y) * 16 + z) * 16 + t ∧ ((x * 16 + y) * 16 + z) * 16 + t < 57344
      then none
      else some (Char.ofNat (((x * 16 + y) * 16 + z) * 16 + t))

/-- The character of a two-character escape. -/
def unescape (e : Char) : Option Char :=
  if e = '"' ∨ e = '\\' ∨ e = '/' then some e
  else if e = 'b' then some '\x08'
  else if e = 'f' then some '\x0c'
  else if e = 'n' then some '\n'
  else if e = 'r' then some '\r'
  else if e = 't' then some '\t'
  else none

/-- Puts a character in front of the string that was read. -/
def pushChar (c : Char) (res : Option (List Char × List Char)) :
    Option (List Char × List Char) :=
  res.map fun sr => (c :: sr.1, sr.2)

/-- Reads a JSON string literal after its opening quote: the string, and the text
behind the closing quote. A bare control character is an error. -/
def readString : List Char → Option (List Char × List Char)
  | [] => none
  | c :: rest =>
    if c = '"' then some ([], rest)
    else if c = '\\' then
      match rest with
      | [] => none
      | e :: rest1 =>
        if e = 'u' then
          match rest1 with
          | a :: b :: x :: d :: rest2 =>
            (hex4 a b x d).bind fun ch => pushChar ch (readString rest2)
          | _ => none
        else (unescape e).bind fun ch => pushChar ch (readString rest1)
    else if c.toNat < 32 then none
    else pushChar c (readString rest)

/-- A decimal digit. -/
def isDigitChar (c : Char) : Bool :=
  48 ≤ c.toNat && c.toNat ≤ 57

/-- The longest run of digits at the start of a text, and the text behind it. -/
def readDigits : List Char → List Char × List Char
  | [] => ([], [])
  | c :: cs =>
    if isDigitChar c then (c :: (readDigits cs).1, (readDigits cs).2) else ([], c :: cs)

/-- The number written by a run of decimal digits. -/
def digitsValue (ds : List Char) : Nat :=
  ds.foldl (fun v d => 10 * v + (d.toNat - 48)) 0

/-- Reads the digits of a JSON number: at least one, and no zero in front of
another digit. -/
def readNat (cs : List Char) : Option (Nat × List Char) :=
  if (readDigits cs).1 = [] then none
  else if (readDigits cs).1.head? = some '0' ∧ (readDigits cs).1.length ≠ 1 then none
  else some (digitsValue (readDigits cs).1, (readDigits cs).2)

/-- Reads a JSON integer into an `int`. -/
def readInt : List Char → Option (Int × List Char)
  | [] => none
  | c :: cs =>
    if c = '-' then (readNat cs).map fun vr => (-(vr.1 : Int), vr.2)
    else (readNat (c :: cs)).map fun vr => ((vr.1 : Int), vr.2)

/-- Reads the fixed text `lit`: the text behind it. -/
def expect : List Char → List Char → Option (List Char)
  | [], cs => some cs
  | _ :: _, [] => none
  | l :: ls, c :: cs => if l = c then expect ls cs else none

/-- Reads the JSON object of one `Player`. -/
def readPlayer (cs : List Char) : Option (Player × List Char) :=
  (expect "\x7b\"Name\":\"".data cs).bind fun r1 =>
    (readString r1).bind fun nr =>
      (expect ",\"Wins\":".data nr.2).bind fun r3 =>
        (readInt r3).bind fun wr =>
          (expect "\x7d".data wr.2).map fun r5 => (⟨String.mk nr.1, wr.1⟩, r5)

/-- Reads the elements of a non-empty JSON array up to its closing bracket. Each
element uses one unit of `fuel`. -/
def readElems : Nat → List Char → Option (List Player × List Char)
  | 0, _ => none
  | fuel + 1, cs =>
    (readPlayer cs).bind fun pr =>
      match pr.2 with
      | [] => none
      | c :: r =>
        if c = ',' then (readElems fuel r).map fun qr => (pr.1 :: qr.1, qr.2)
        else if c = ']' then some ([pr.1], r)
        else none

/-- Reads a JSON array of players; the fuel is the length of the text. -/
def readArray : List Char → Option (List Player × List Char)
  | [] => none
  | c :: r =>
    if c = '[' then
      match r with
      | [] => none
      | d :: r1 => if d = ']' then some ([], r1) else readElems r.length r
    else none

/-- Modelled from the spec: the test helper `getLeagueFromResponse`, which is not
among the source files, deserializes the body of the `/league` response into a
`[]Player` that starts nil. The model reads the text that `encoding/json` itself
writes (no blank between the tokens, the fields `Name` and `Wins` in this order,
one newline at the end) and fails on any other text: `null` leaves the slice nil,
an array gives its elements in order. -/
def getLeagueFromResponse (body : String) : Option (Option (List Player)) :=
  if body.data = "null\n".data then some none
  else (readArray body.data).bind fun ar => if ar.2 = ['\n'] then some (some ar.1) else none

/-! ## Lemmas on the library model and on the handlers -/

theorem hasPrefix_players (s : String) : HasPrefix ("/players/" ++ s) "/players/" = true := by
  unfold HasPrefix
  rw [String.data_append, List.isPrefixOf_iff_prefix]
  exact List.prefix_append _ _

theorem trimPrefix_players (s : String) : TrimPrefix ("/players/" ++ s) "/players/" = s := by
  unfold TrimPrefix
  rw [if_pos (hasPrefix_players s), String.data_append, List.drop_left]

theorem writeHeader_fresh (code : Nat) :
    NewRecorder.WriteHeader code =
      { header := [], wroteHeader := true, Code := code, sent := [], Body := "" } := by
  rfl

/-- The GET branch of `playersHandler` is `showScore` on the rest of the path. -/
theorem playersHandler_get {σ : Type} (p : PlayerServer σ) (w : ResponseWriter) (n : String) :
    p.playersHandler w ⟨MethodGet, "/players/" ++ n⟩ = p.showScore w n := by
  have hm : MethodGet ≠ MethodPost := by decide
  simp only [PlayerServer.playersHandler, trimPrefix_players, if_neg hm, if_true]

/-- The POST branch of `playersHandler` is `processWin` on the rest of the path. -/
theorem playersHandler_post {σ : Type} (p : PlayerServer σ) (w : ResponseWriter) (n : String) :
    p.playersHandler w ⟨MethodPost, "/players/" ++ n⟩ = p.processWin w n := by
  simp only [PlayerServer.playersHandler, trimPrefix_players, if_true]

/-- The store call of `showScore`. -/
theorem showScore_server {σ : Type} (p : PlayerServer σ) (w : ResponseWriter) (n : String) :
    (p.showScore w n).1 = { p with calls := p.calls ++ [StoreCall.GetPlayerScore n] } := by
  rfl

/-- The status of the response of `showScore` on a fresh writer. -/
theorem showScore_code {σ : Type} (p : PlayerServer σ) (n : String) :
    (p.showScore NewRecorder n).2.Code
      = if p.store.GetPlayerScore p.state n = 0 then 404 else 200 := by
  simp only [PlayerServer.showScore, PlayerServer.callGetPlayerScore, Fprint]
  by_cases h : p.store.GetPlayerScore p.state n = 0
  · simp [h, ResponseWriter.Write, ResponseWriter.WriteHeader, NewRecorder, StatusNotFound]
  · simp [h, ResponseWriter.Write, ResponseWriter.WriteHeader, NewRecorder, StatusOK]

/-- The body of the response of `showScore` on a fresh writer. -/
theorem showScore_body {σ : Type} (p : PlayerServer σ) (n : String) :
    (p.showScore NewRecorder n).2.Body = FormatInt (p.store.GetPlayerScore p.state n) := by
  simp only [PlayerServer.showScore, PlayerServer.callGetPlayerScore, Fprint]
  by_cases h : p.store.GetPlayerScore p.state n = 0
  · simp [h, ResponseWriter.Write, ResponseWriter.WriteHeader, NewRecorder]
  · simp [h, ResponseWriter.Write, ResponseWriter.WriteHeader, NewRecorder]

/-- The response of `processWin` on a fresh writer. -/
theorem processWin_fresh {σ : Type} (p : PlayerServer σ) (n : String) :
    p.processWin NewRecorder n =
      ({ p with state := p.store.RecordWin p.state n,
                calls := p.calls ++ [StoreCall.RecordWin n] },
       { header := [], wroteHeader := true, Code := 202, sent := [], Body := "" }) := by
  simp [PlayerServer.processWin, PlayerServer.callRecordWin, writeHeader_fresh, StatusAccepted]

/-- The response of `leagueHandler` on a fresh writer: the final `WriteHeader`
comes after the first write and changes nothing. -/
theorem leagueHandler_fresh {σ : Type} (p : PlayerServer σ) (r : Request) :
    p.leagueHandler NewRecorder r =
      ({ p with calls := p.calls ++ [StoreCall.GetLeague] },
       { header := [("Content-Type", "application/json")], wroteHeader := true, Code := 200,
         sent := [("Content-Type", "application/json")],
         Body := String.mk (Marshal (p.store.GetLeague p.state) ++ ['\n']) }) := by
  have hk : CanonicalMIMEHeaderKey "content-type" = "Content-Type" := by decide
  simp only [PlayerServer.leagueHandler, PlayerServer.callGetLeague, Encode,
    ResponseWriter.Write, ResponseWriter.WriteHeader, ResponseWriter.HeaderSet, NewRecorder,
    hk, jsonContentType, StatusOK]
  simp

theorem cleanPath_league : cleanPath "/league" = "/league" := by decide

/-- Whatever the method, the path `/league` selects `leagueHandler`. -/
theorem handler_league (method : String) :
    ServeMux.Handler ⟨method, "/league"⟩ = Route.leagueHandler := by
  unfold ServeMux.Handler
  have h1 : ServeMux.shouldRedirect "/league" = false := by decide
  have h2 : ServeMux.handler "/league" = Route.leagueHandler := by decide
  simp only [cleanPath_league, h1, h2]
  simp

theorem players_ne_league (s : String) : "/players/" ++ s ≠ "/league" := by
  intro h
  have h2 := congrArg String.data h
  rw [String.data_append] at h2
  simp at h2

theorem players_no_slash_redirect (s : String) :
    ServeMux.shouldRedirect ("/players/" ++ s) = false := by
  unfold ServeMux.shouldRedirect
  have h : ServeMux.registered (("/players/" ++ s) ++ "/") = false := by
    have h1 : ("/players/" ++ s) ++ "/" ≠ "/players/" := by
      intro h
      have h2 := congrArg (fun t => t.data.length) h
      simp [String.data_append] at h2
    have h3 : ("/players/" ++ s) ++ "/" ≠ "/league" := by
      intro h
      have h2 := congrArg String.data h
      simp [String.data_append] at h2
    simp [ServeMux.registered, h1, h3]
  simp [h]

theorem handler_players (s : String) :
    ServeMux.handler ("/players/" ++ s) = Route.playersHandler := by
  unfold ServeMux.handler
  rw [if_neg (players_ne_league s), if_pos (hasPrefix_players s)]

/-- A request for a clean path under `/players/` reaches `playersHandler`. -/
theorem route_players (method s : String)
    (hclean : cleanPath ("/players/" ++ s) = "/players/" ++ s) :
    ServeMux.Handler ⟨method, "/players/" ++ s⟩ = Route.playersHandler := by
  unfold ServeMux.Handler
  simp only [hclean, players_no_slash_redirect, handler_players]
  simp

/-- Served by the server, a GET for a clean path under `/players/` is `showScore`. -/
theorem serve_get {σ : Type} (p : PlayerServer σ) (w : ResponseWriter) (s : String)
    (hclean : cleanPath ("/players/" ++ s) = "/players/" ++ s) :
    p.ServeHTTP w ⟨MethodGet, "/players/" ++ s⟩ = p.showScore w s := by
  simp only [PlayerServer.ServeHTTP, route_players _ s hclean, playersHandler_get]

/-- Served by the server, a POST for a clean path under `/players/` is `processWin`. -/
theorem serve_post {σ : Type} (p : PlayerServer σ) (w : ResponseWriter) (s : String)
    (hclean : cleanPath ("/players/" ++ s) = "/players/" ++ s) :
    p.ServeHTTP w ⟨MethodPost, "/players/" ++ s⟩ = p.processWin w s := by
  simp only [PlayerServer.ServeHTTP, route_players _ s hclean, playersHandler_post]

/-- Served by the server, a request for `/league` is `leagueHandler`. -/
theorem serve_league {σ : Type} (p : PlayerServer σ) (w : ResponseWriter) (method : String) :
    p.ServeHTTP w ⟨method, "/league"⟩ = p.leagueHandler w ⟨method, "/league"⟩ := by
  simp only [PlayerServer.ServeHTTP, handler_league]

/-- Served by the server, a request for a clean path under `/players/` with a
method other than GET and POST is left unanswered by the handler. -/
theorem serve_other_method {σ : Type} (p : PlayerServer σ) (w : ResponseWriter)
    (method s : String) (hclean : cleanPath ("/players/" ++ s) = "/players/" ++ s)
    (hget : method ≠ MethodGet) (hpost : method ≠ MethodPost) :
    p.ServeHTTP w ⟨method, "/players/" ++ s⟩ = (p, w) := by
  simp only [PlayerServer.ServeHTTP, route_players _ s hclean, PlayerServer.playersHandler,
    if_neg hget, if_neg hpost]

/-- A request other than `CONNECT` for a path that is not clean is answered by the
mux with a redirect, whatever is registered. -/
theorem unclean_redirect (method path : String) (hm : method ≠ MethodConnect)
    (h : cleanPath path ≠ path) :
    ∃ url, ServeMux.Handler ⟨method, path⟩ = Route.redirect url := by
  unfold ServeMux.Handler
  rw [if_neg hm]
  by_cases h1 : ServeMux.shouldRedirect (cleanPath path) = true
  · exact ⟨cleanPath path ++ "/", by simp [h1]⟩
  · exact ⟨cleanPath path, by simp [h1, h]⟩

/-- Served by the server, such a request makes no store call: the server is the
one before the request. -/
theorem serve_unclean {σ : Type} (p : PlayerServer σ) (w : ResponseWriter)
    (method path : String) (hm : method ≠ MethodConnect) (h : cleanPath path ≠ path) :
    (p.ServeHTTP w ⟨method, path⟩).1 = p := by
  obtain ⟨url, hu⟩ := unclean_redirect method path hm h
  simp only [PlayerServer.ServeHTTP, hu]

/-! ## Clean paths -/

theorem splitSlash_no_slash (l : List Char) (h : '/' ∉ l) : splitSlash l = [l] := by
  induction l with
  | nil => rfl
  | cons c cs ih =>
    have hc : c ≠ '/' := fun hc => h (by simp [hc])
    have hcs : '/' ∉ cs := fun hcs => h (List.mem_cons_of_mem c hcs)
    simp [splitSlash, hc, ih hcs]

theorem getLast_no_slash (l pre : List Char) (h : '/' ∉ l) (hne : l ≠ []) :
    (pre ++ l).getLast? ≠ some '/' := by
  intro hl
  have h1 : (pre ++ l).getLast? = l.getLast? := by
    rw [List.getLast?_append]
    cases hl2 : l.getLast? with
    | none => simp [List.getLast?_eq_none_iff] at hl2; exact absurd hl2 hne
    | some a => simp
  rw [h1] at hl
  exact h (List.mem_of_getLast?_eq_some hl)

/-- A name with no slash, other than `.` and `..`, gives a clean path under
`/players/`; so does the empty name. -/
theorem cleanPath_simple_name (n : String) (h : '/' ∉ n.data) (h1 : n ≠ ".") (h2 : n ≠ "..") :
    cleanPath ("/players/" ++ n) = "/players/" ++ n := by
  have hd : ("/players/" ++ n).data = "/players/".data ++ n.data := String.data_append _ _
  have hne : "/players/" ++ n ≠ "" := by
    intro h3
    have := congrArg (fun t => t.data.length) h3
    simp [String.data_append] at this
  have hsplit : splitSlash ("/players/".data ++ n.data) = [[], "players".data, n.data] := by
    simp [splitSlash, splitSlash_no_slash n.data h]
  have hn1 : n.data ≠ ['.'] := fun h3 => h1 (by cases n; simp_all)
  have hn2 : n.data ≠ ['.', '.'] := fun h3 => h2 (by cases n; simp_all)
  unfold cleanPath
  rw [if_neg hne]
  simp only [hd]
  have hhead : ("/players/".data ++ n.data).head? = some '/' := by simp
  rw [if_pos hhead]
  unfold Clean
  rw [hsplit]
  by_cases he : n.data = []
  · have hn : n = "" := by cases n; simp_all
    subst hn
    decide
  · have hlast := getLast_no_slash n.data "/players/".data h he
    have hce : cleanElems [] [[], "players".data, n.data] = ["players".data, n.data] := by
      simp [cleanElems, he, hn1, hn2]
    rw [hce]
    simp only [hlast, false_and, if_false]
    apply String.ext
    simp [joinElems, String.data_append]

/-! ## The dispatcher: one request -/

/-- C1: handled by `playersHandler`, a GET request for `/players/n` makes the one
call `GetPlayerScore(n)` and leaves the store as it is; the body is the decimal
text of the score returned; the status is 404 exactly when that score is zero and
200 otherwise, so that a 404 response has the body `0`. -/
theorem get_player_score {σ : Type} (p : PlayerServer σ) (n : String) :
    (p.playersHandler NewRecorder ⟨MethodGet, "/players/" ++ n⟩).1.calls
        = p.calls ++ [StoreCall.GetPlayerScore n] ∧
    (p.playersHandler NewRecorder ⟨MethodGet, "/players/" ++ n⟩).1.state = p.state ∧
    (p.playersHandler NewRecorder ⟨MethodGet, "/players/" ++ n⟩).2.Body
        = FormatInt (p.store.GetPlayerScore p.state n) ∧
    ((p.playersHandler NewRecorder ⟨MethodGet, "/players/" ++ n⟩).2.Code = 404
        ↔ p.store.GetPlayerScore p.state n = 0) ∧
    (p.playersHandler NewRecorder ⟨MethodGet, "/players/" ++ n⟩).2.Code
        = (if p.store.GetPlayerScore p.state n = 0 then 404 else 200) ∧
    ((p.playersHandler NewRecorder ⟨MethodGet, "/players/" ++ n⟩).2.Code = 404 →
      (p.playersHandler NewRecorder ⟨MethodGet, "/players/" ++ n⟩).2.Body = "0") := by
  rw [playersHandler_get, showScore_server, showScore_code, showScore_body]
  have hz : FormatInt 0 = "0" := by decide
  refine ⟨rfl, rfl, rfl, ?_, rfl, ?_⟩
  · by_cases h : p.store.GetPlayerScore p.state n = 0 <;> simp [h]
  · by_cases h : p.store.GetPlayerScore p.state n = 0 <;> simp [h, hz]

/-- C2: handled by `playersHandler`, a POST request for `/players/n` makes the one
call `RecordWin(n)` and no other; the status is 202 and the body is empty. -/
theorem post_records_win {σ : Type} (p : PlayerServer σ) (n : String) :
    (p.playersHandler NewRecorder ⟨MethodPost, "/players/" ++ n⟩).1.calls
        = p.calls ++ [StoreCall.RecordWin n] ∧
    (p.playersHandler NewRecorder ⟨MethodPost, "/players/" ++ n⟩).1.state
        = p.store.RecordWin p.state n ∧
    (p.playersHandler NewRecorder ⟨MethodPost, "/players/" ++ n⟩).2.Code = 202 ∧
    (p.playersHandler NewRecorder ⟨MethodPost, "/players/" ++ n⟩).2.Body = "" := by
  rw [playersHandler_post, processWin_fresh]
  exact ⟨rfl, rfl, rfl, rfl⟩

/-- C3: whatever the method, a request for the path `/league` served by the
server makes the one call `GetLeague()`; the response has status 200, the content
type `application/json` in the headers sent, and as body the JSON text of the
league returned, followed by a newline. The status is the one implied by the
first write: the `WriteHeader` that follows the body changes nothing. -/
theorem league_response {σ : Type} (p : PlayerServer σ) (method : String) :
    (p.ServeHTTP NewRecorder ⟨method, "/league"⟩).1.calls = p.calls ++ [StoreCall.GetLeague] ∧
    (p.ServeHTTP NewRecorder ⟨method, "/league"⟩).1.state = p.state ∧
    (p.ServeHTTP NewRecorder ⟨method, "/league"⟩).2.Code = 200 ∧
    headerGet (p.ServeHTTP NewRecorder ⟨method, "/league"⟩).2.sent "content-type"
        = some "application/json" ∧
    (p.ServeHTTP NewRecorder ⟨method, "/league"⟩).2.Body
        = String.mk (Marshal (p.store.GetLeague p.state) ++ ['\n']) ∧
    (p.ServeHTTP NewRecorder ⟨method, "/league"⟩).2
        = Encode (NewRecorder.HeaderSet "content-type" jsonContentType)
            (p.store.GetLeague p.state) := by
  rw [serve_league, leagueHandler_fresh]
  have hg : headerGet [("Content-Type", "application/json")] "content-type"
      = some "application/json" := by decide
  refine ⟨rfl, rfl, rfl, hg, rfl, ?_⟩
  have hk : CanonicalMIMEHeaderKey "content-type" = "Content-Type" := by decide
  simp [Encode, ResponseWriter.Write, ResponseWriter.WriteHeader, ResponseWriter.HeaderSet,
    NewRecorder, hk, jsonContentType, StatusOK]

/-- C7: `playersHandler` does nothing for a request under `/players/` whose method
is neither GET nor POST: no store call, no status set, so the response is the
untouched one, status 200 with an empty body. -/
theorem other_method_untouched {σ : Type} (p : PlayerServer σ) (r : Request)
    (_hpath : HasPrefix r.Path "/players/" = true)
    (hget : r.Method ≠ MethodGet) (hpost : r.Method ≠ MethodPost) :
    (p.playersHandler NewRecorder r).1 = p ∧
    (p.playersHandler NewRecorder r).1.calls = p.calls ∧
    (p.playersHandler NewRecorder r).2 = NewRecorder ∧
    (p.playersHandler NewRecorder r).2.wroteHeader = false ∧
    (p.playersHandler NewRecorder r).2.Code = 200 ∧
    (p.playersHandler NewRecorder r).2.Body = "" := by
  simp [PlayerServer.playersHandler, hget, hpost, NewRecorder]

/-- An instance: a PUT request for `/players/Pepper`. -/
theorem other_method_untouched_witness :
    ((NewPlayerServer (fixedStore none) ()).playersHandler NewRecorder
        ⟨"PUT", "/players/Pepper"⟩).1 = NewPlayerServer (fixedStore none) () ∧
    ((NewPlayerServer (fixedStore none) ()).playersHandler NewRecorder
        ⟨"PUT", "/players/Pepper"⟩).1.calls = (NewPlayerServer (fixedStore none) ()).calls ∧
    ((NewPlayerServer (fixedStore none) ()).playersHandler NewRecorder
        ⟨"PUT", "/players/Pepper"⟩).2 = NewRecorder ∧
    ((NewPlayerServer (fixedStore none) ()).playersHandler NewRecorder
        ⟨"PUT", "/players/Pepper"⟩).2.wroteHeader = false ∧
    ((NewPlayerServer (fixedStore none) ()).playersHandler NewRecorder
        ⟨"PUT", "/players/Pepper"⟩).2.Code = 200 ∧
    ((NewPlayerServer (fixedStore none) ()).playersHandler NewRecorder
        ⟨"PUT", "/players/Pepper"⟩).2.Body = "" :=
  other_method_untouched (NewPlayerServer (fixedStore none) ()) ⟨"PUT", "/players/Pepper"⟩
    (by decide) (by decide) (by decide)

/-- C8, as amended: when `/players/` followed by `s` is a clean path, a GET or
POST request for it served by the server passes exactly `s` to the store, as it
stands; when that path is not clean, the router answers the GET or POST request
with a redirect and the server makes no store call. -/
theorem clean_path_name {σ : Type} (p : PlayerServer σ) (s : String) :
    (cleanPath ("/players/" ++ s) = "/players/" ++ s →
      (p.ServeHTTP NewRecorder ⟨MethodGet, "/players/" ++ s⟩).1.calls
          = p.calls ++ [StoreCall.GetPlayerScore s] ∧
      (p.ServeHTTP NewRecorder ⟨MethodPost, "/players/" ++ s⟩).1.calls
          = p.calls ++ [StoreCall.RecordWin s]) ∧
    (cleanPath ("/players/" ++ s) ≠ "/players/" ++ s →
      (∃ url, ServeMux.Handler ⟨MethodGet, "/players/" ++ s⟩ = Route.redirect url) ∧
      (∃ url, ServeMux.Handler ⟨MethodPost, "/players/" ++ s⟩ = Route.redirect url) ∧
      (p.ServeHTTP NewRecorder ⟨MethodGet, "/players/" ++ s⟩).1 = p ∧
      (p.ServeHTTP NewRecorder ⟨MethodPost, "/players/" ++ s⟩).1 = p ∧
      (p.ServeHTTP NewRecorder ⟨MethodGet, "/players/" ++ s⟩).1.calls = p.calls ∧
      (p.ServeHTTP NewRecorder ⟨MethodPost, "/players/" ++ s⟩).1.calls = p.calls) := by
  have hg : MethodGet ≠ MethodConnect := by decide
  have hp : MethodPost ≠ MethodConnect := by decide
  constructor
  · intro hclean
    rw [serve_get p _ s hclean, serve_post p _ s hclean, showScore_server, processWin_fresh]
    exact ⟨rfl, rfl⟩
  · intro hunclean
    have h1 := serve_unclean p NewRecorder MethodGet _ hg hunclean
    have h2 := serve_unclean p NewRecorder MethodPost _ hp hunclean
    exact ⟨unclean_redirect _ _ hg hunclean, unclean_redirect _ _ hp hunclean, h1, h2,
      by rw [h1], by rw [h2]⟩

/-- Two instances: the name `a/b`, whose path `/players/a/b` is clean and which is
passed as it stands, and the name `.`, whose path `/players/.` is not clean and
for which no store call is made. -/
theorem clean_path_name_witness :
    cleanPath ("/players/" ++ "a/b") = "/players/" ++ "a/b" ∧
    ((NewPlayerServer (fixedStore none) ()).ServeHTTP NewRecorder
        ⟨MethodGet, "/players/" ++ "a/b"⟩).1.calls
        = (NewPlayerServer (fixedStore none) ()).calls ++ [StoreCall.GetPlayerScore "a/b"] ∧
    ((NewPlayerServer (fixedStore none) ()).ServeHTTP NewRecorder
        ⟨MethodPost, "/players/" ++ "a/b"⟩).1.calls
        = (NewPlayerServer (fixedStore none) ()).calls ++ [StoreCall.RecordWin "a/b"] ∧
    cleanPath ("/players/" ++ ".") ≠ "/players/" ++ "." ∧
    ((NewPlayerServer (fixedStore none) ()).ServeHTTP NewRecorder
        ⟨MethodGet, "/players/" ++ "."⟩).1.calls = (NewPlayerServer (fixedStore none) ()).calls ∧
    ((NewPlayerServer (fixedStore none) ()).ServeHTTP NewRecorder
        ⟨MethodPost, "/players/" ++ "."⟩).1.calls
        = (NewPlayerServer (fixedStore none) ()).calls :=
  ⟨by decide,
   ((clean_path_name (NewPlayerServer (fixedStore none) ()) "a/b").1 (by decide)).1,
   ((clean_path_name (NewPlayerServer (fixedStore none) ()) "a/b").1 (by decide)).2,
   by decide,
   ((clean_path_name (NewPlayerServer (fixedStore none) ()) ".").2 (by decide)).2.2.2.2.1,
   ((clean_path_name (NewPlayerServer (fixedStore none) ()) ".").2 (by decide)).2.2.2.2.2⟩

/-- C8, the claim as stated fails: the path `/players//x` is `/players/` followed
by `/x`; the mux selects a redirect to `/players/x` for a GET or a POST for it, no
call to the store is made, and so the name `/x` is not passed. -/
theorem double_slash_redirected :
    "/players/" ++ "/x" = "/players//x" ∧
    ServeMux.Handler ⟨MethodGet, "/players//x"⟩ = Route.redirect "/players/x" ∧
    ServeMux.Handler ⟨MethodPost, "/players//x"⟩ = Route.redirect "/players/x" ∧
    ((NewPlayerServer (fixedStore none) ()).ServeHTTP NewRecorder
        ⟨MethodGet, "/players//x"⟩).1.calls = [] ∧
    ((NewPlayerServer (fixedStore none) ()).ServeHTTP NewRecorder
        ⟨MethodGet, "/players//x"⟩).1.calls ≠ [StoreCall.GetPlayerScore "/x"] ∧
    ((NewPlayerServer (fixedStore none) ()).ServeHTTP NewRecorder
        ⟨MethodPost, "/players//x"⟩).1.calls = [] ∧
    ((NewPlayerServer (fixedStore none) ()).ServeHTTP NewRecorder
        ⟨MethodPost, "/players//x"⟩).1.calls ≠ [StoreCall.RecordWin "/x"] := by
  decide

/-- Only a path under `/players/` selects `playersHandler`. -/
theorem players_route_path (r : Request) (h : ServeMux.Handler r = Route.playersHandler) :
    HasPrefix r.Path "/players/" = true := by
  have key : ∀ path, ServeMux.handler path = Route.playersHandler →
      HasPrefix path "/players/" = true := by
    intro path hp
    unfold ServeMux.handler at hp
    split_ifs at hp with h1 h2
    exact h2
  unfold ServeMux.Handler at h
  by_cases hc : r.Method = MethodConnect
  · rw [if_pos hc] at h
    split_ifs at h with h2
    exact key _ h
  · rw [if_neg hc] at h
    simp only at h
    split_ifs at h with h2 h3
    exact key _ h

/-- The store calls of `ServeHTTP`: what each route does to the server. -/
theorem serve_store_effect {σ : Type} (p : PlayerServer σ) (w : ResponseWriter) (r : Request)
    (h : ¬ (r.Method = MethodPost ∧ HasPrefix r.Path "/players/" = true)) :
    (p.ServeHTTP w r).1 = p ∨
    (p.ServeHTTP w r).1 = { p with calls := p.calls ++ [StoreCall.GetLeague] } ∨
    (p.ServeHTTP w r).1 = { p with calls := p.calls ++
      [StoreCall.GetPlayerScore (TrimPrefix r.Path "/players/")] } := by
  unfold PlayerServer.ServeHTTP
  cases hr : ServeMux.Handler r with
  | leagueHandler =>
    right; left
    simp [PlayerServer.leagueHandler, PlayerServer.callGetLeague]
  | playersHandler =>
    have hp := players_route_path r hr
    have hm : r.Method ≠ MethodPost := fun hm => h ⟨hm, hp⟩
    by_cases hg : r.Method = MethodGet
    · right; right
      have hgp : MethodGet ≠ MethodPost := by decide
      simp [PlayerServer.playersHandler, hg, hgp, PlayerServer.showScore,
        PlayerServer.callGetPlayerScore]
    · left
      simp [PlayerServer.playersHandler, hm, hg]
  | redirect url => left; rfl
  | notFound => left; rfl

/-- C10: a request served by the server that is not a POST for a path under
`/players/` never calls `RecordWin`: the calls it adds to the journal are none, one
`GetLeague` or one `GetPlayerScore`; the state of the store is the one before the
request, and so is every later result of `GetPlayerScore` and `GetLeague`. -/
theorem read_only_except_post {σ : Type} (p : PlayerServer σ) (w : ResponseWriter)
    (r : Request) (h : ¬ (r.Method = MethodPost ∧ HasPrefix r.Path "/players/" = true)) :
    (∃ cs, (p.ServeHTTP w r).1.calls = p.calls ++ cs ∧ ∀ n, StoreCall.RecordWin n ∉ cs) ∧
    (p.ServeHTTP w r).1.state = p.state ∧
    (p.ServeHTTP w r).1.store = p.store ∧
    (∀ n, (p.ServeHTTP w r).1.store.GetPlayerScore (p.ServeHTTP w r).1.state n
        = p.store.GetPlayerScore p.state n) ∧
    (p.ServeHTTP w r).1.store.GetLeague (p.ServeHTTP w r).1.state
        = p.store.GetLeague p.state := by
  rcases serve_store_effect p w r h with h1 | h1 | h1
  · rw [h1]
    exact ⟨⟨[], by simp, by simp⟩, rfl, rfl, fun _ => rfl, rfl⟩
  · rw [h1]
    exact ⟨⟨[StoreCall.GetLeague], rfl, by simp⟩, rfl, rfl, fun _ => rfl, rfl⟩
  · rw [h1]
    exact ⟨⟨[StoreCall.GetPlayerScore (TrimPrefix r.Path "/players/")], rfl, by simp⟩,
      rfl, rfl, fun _ => rfl, rfl⟩

/-- An instance: a GET request for `/players/Pepper`. -/
theorem read_only_except_post_witness :
    ¬ ((⟨"GET", "/players/Pepper"⟩ : Request).Method = MethodPost ∧
        HasPrefix (⟨"GET", "/players/Pepper"⟩ : Request).Path "/players/" = true) ∧
    ((∃ cs, ((NewPlayerServer (fixedStore none) ()).ServeHTTP NewRecorder
          ⟨"GET", "/players/Pepper"⟩).1.calls
            = (NewPlayerServer (fixedStore none) ()).calls ++ cs ∧
          ∀ n, StoreCall.RecordWin n ∉ cs) ∧
      ((NewPlayerServer (fixedStore none) ()).ServeHTTP NewRecorder
          ⟨"GET", "/players/Pepper"⟩).1.state = (NewPlayerServer (fixedStore none) ()).state ∧
      ((NewPlayerServer (fixedStore none) ()).ServeHTTP NewRecorder
          ⟨"GET", "/players/Pepper"⟩).1.store = (NewPlayerServer (fixedStore none) ()).store ∧
      (∀ n, ((NewPlayerServer (fixedStore none) ()).ServeHTTP NewRecorder
          ⟨"GET", "/players/Pepper"⟩).1.store.GetPlayerScore
            ((NewPlayerServer (fixedStore none) ()).ServeHTTP NewRecorder
              ⟨"GET", "/players/Pepper"⟩).1.state n
          = (NewPlayerServer (fixedStore none) ()).store.GetPlayerScore
              (NewPlayerServer (fixedStore none) ()).state n) ∧
      ((NewPlayerServer (fixedStore none) ()).ServeHTTP NewRecorder
          ⟨"GET", "/players/Pepper"⟩).1.store.GetLeague
            ((NewPlayerServer (fixedStore none) ()).ServeHTTP NewRecorder
              ⟨"GET", "/players/Pepper"⟩).1.state
          = (NewPlayerServer (fixedStore none) ()).store.GetLeague
              (NewPlayerServer (fixedStore none) ()).state) :=
  ⟨by decide, read_only_except_post (NewPlayerServer (fixedStore none) ()) NewRecorder
    ⟨"GET", "/players/Pepper"⟩ (by decide)⟩


/-! ## The in-memory store keeps the contract -/

theorem scoreOf_addWin_same (s : List Player) (n : String) :
    scoreOf (addWin s n) n = scoreOf s n + 1 := by
  induction s with
  | nil => simp [addWin, scoreOf]
  | cons q qs ih =>
    by_cases h : q.Name = n
    · simp [addWin, scoreOf, h]
    · simp [addWin, scoreOf, h, ih]

theorem scoreOf_addWin_other (s : List Player) (n m : String) (hm : m ≠ n) :
    scoreOf (addWin s n) m = scoreOf s m := by
  induction s with
  | nil => simp [addWin, scoreOf, Ne.symm hm]
  | cons q qs ih =>
    by_cases h : q.Name = n
    · have h2 : q.Name ≠ m := fun h3 => hm (h3.symm.trans h)
      simp [addWin, scoreOf, h, h2, Ne.symm hm]
    · by_cases h2 : q.Name = m
      · simp only [addWin, if_neg h, scoreOf, if_pos h2]
      · simp only [addWin, if_neg h, scoreOf, if_neg h2, ih]

theorem names_addWin (s : List Player) (n : String) :
    (addWin s n).map Player.Name =
      if n ∈ s.map Player.Name then s.map Player.Name else s.map Player.Name ++ [n] := by
  induction s with
  | nil => simp [addWin]
  | cons q qs ih =>
    by_cases h : q.Name = n
    · simp [addWin, h]
    · have h2 : ¬ n = q.Name := fun h3 => h h3.symm
      simp only [addWin, h, if_false, List.map_cons, ih, List.mem_cons, h2, false_or]
      split_ifs <;> simp

theorem nodup_addWin (s : List Player) (n : String) (h : (s.map Player.Name).Nodup) :
    ((addWin s n).map Player.Name).Nodup := by
  rw [names_addWin]
  split_ifs with h1
  · exact h
  · exact List.Nodup.append h (List.nodup_singleton n) (by simpa using h1)

/-- In a list with no repeated name, the entries are the pairs of a listed name
and its score. -/
theorem mem_iff_scoreOf (s : List Player) (h : (s.map Player.Name).Nodup) (q : Player) :
    q ∈ s ↔ (q.Name ∈ s.map Player.Name ∧ q.Wins = scoreOf s q.Name) := by
  induction s with
  | nil => simp
  | cons a as ih =>
    rw [List.map_cons, List.nodup_cons] at h
    obtain ⟨ha, has⟩ := h
    by_cases hq : a.Name = q.Name
    · have hnot : q ∉ as := fun hmem => ha (hq ▸ List.mem_map_of_mem Player.Name hmem)
      simp only [List.mem_cons, hnot, or_false, List.map_cons, scoreOf, hq, if_true, true_or,
        true_and]
      constructor
      · intro h1; rw [h1]
      · intro h1
        cases q; cases a; simp_all
    · have hne : q ≠ a := fun h1 => hq (by rw [h1])
      have hne2 : ¬ q.Name = a.Name := fun h1 => hq h1.symm
      simp only [List.mem_cons, hne, false_or, List.map_cons, scoreOf, hq, if_false, hne2]
      exact ih has

theorem recordAll_inMemory_nodup (names : List String) (s : List Player)
    (h : (s.map Player.Name).Nodup) :
    ((recordAll InMemoryPlayerStore s names).map Player.Name).Nodup := by
  induction names generalizing s with
  | nil => exact h
  | cons n ns ih => exact ih (addWin s n) (nodup_addWin s n h)

theorem recordAll_inMemory_names (names : List String) (s : List Player) (m : String) :
    m ∈ (recordAll InMemoryPlayerStore s names).map Player.Name ↔
      (m ∈ s.map Player.Name ∨ m ∈ names) := by
  induction names generalizing s with
  | nil => simp [recordAll]
  | cons n ns ih =>
    have h1 := ih (addWin s n)
    simp only [recordAll, List.foldl_cons] at h1 ⊢
    show m ∈ List.map Player.Name (List.foldl InMemoryPlayerStore.RecordWin (addWin s n) ns) ↔ _
    rw [h1, names_addWin]
    split_ifs with h2
    · simp only [List.mem_cons]
      constructor
      · rintro (h3 | h3)
        · exact Or.inl h3
        · exact Or.inr (Or.inr h3)
      · rintro (h3 | h3 | h3)
        · exact Or.inl h3
        · exact Or.inl (h3 ▸ h2)
        · exact Or.inr h3
    · simp only [List.mem_append, List.mem_singleton, List.mem_cons]
      tauto

/-- The in-memory store keeps the contract of the store. -/
theorem inMemory_contract : StoreContract InMemoryPlayerStore NewInMemoryPlayerStore where
  score_empty := fun _ => rfl
  score_record := scoreOf_addWin_same
  score_other := fun s n m hm => scoreOf_addWin_other s n m hm
  league_nodup := fun names => by
    have h := recordAll_inMemory_nodup names [] (by simp)
    simpa [elems, InMemoryPlayerStore, NewInMemoryPlayerStore] using h
  league_mem := fun names q => by
    have h := recordAll_inMemory_nodup names [] (by simp)
    have h2 := mem_iff_scoreOf _ h q
    have h3 := recordAll_inMemory_names names [] q.Name
    simp only [List.map_nil, List.not_mem_nil, false_or] at h3
    rw [h3] at h2
    simpa [elems, InMemoryPlayerStore, NewInMemoryPlayerStore] using h2

/-! ## Sequences of requests against a store that keeps the contract -/

theorem recordAll_append {σ : Type} (S : PlayerStore σ) (s : σ) (names : List String)
    (n : String) : recordAll S s (names ++ [n]) = S.RecordWin (recordAll S s names) n := by
  simp [recordAll, List.foldl_append]

/-- Under the contract the score of a name is the number of its recorded wins. -/
theorem score_recordAll {σ : Type} (S : PlayerStore σ) (empty : σ)
    (hS : StoreContract S empty) (names : List String) (n : String) :
    S.GetPlayerScore (recordAll S empty names) n = (names.count n : Int) := by
  induction names using List.reverseRecOn with
  | nil => simpa [recordAll] using hS.score_empty n
  | append_singleton ns m ih =>
    rw [recordAll_append, List.count_append]
    by_cases h : n = m
    · subst h
      rw [hS.score_record, ih]
      simp
    · rw [hS.score_other _ _ _ h, ih]
      have : List.count n [m] = 0 := by
        rw [List.count_eq_zero]
        simpa using h
      simp [this]

/-- POST requests for clean paths record one win each, in order. -/
theorem serveAll_posts {σ : Type} (p : PlayerServer σ) (names : List String)
    (hclean : ∀ n ∈ names, cleanPath ("/players/" ++ n) = "/players/" ++ n) :
    (serveAll p (names.map newPostWinRequest)).state = recordAll p.store p.state names ∧
    (serveAll p (names.map newPostWinRequest)).store = p.store := by
  induction names generalizing p with
  | nil => exact ⟨rfl, rfl⟩
  | cons n ns ih =>
    have hn := hclean n (List.mem_cons_self n ns)
    have hns : ∀ m ∈ ns, cleanPath ("/players/" ++ m) = "/players/" ++ m :=
      fun m hm => hclean m (List.mem_cons_of_mem n hm)
    have hstep : (p.ServeHTTP NewRecorder (newPostWinRequest n)).1 = p.callRecordWin n := by
      unfold newPostWinRequest
      rw [serve_post p _ n hn]
      rfl
    simp only [List.map_cons, serveAll, hstep]
    have h := ih (p.callRecordWin n) hns
    exact h

/-- C4, as amended: against a store that keeps the contract and starts empty, for
a name `n` such that `/players/n` is a clean path and for every `k`, after `k` POST
requests for `/players/n` a GET request for it has the decimal text of `k` as its
body, with status 404 (and body `0`) when `k` is zero and status 200 otherwise. -/
theorem wins_then_score {σ : Type} (S : PlayerStore σ) (empty : σ)
    (hS : StoreContract S empty) (n : String) (k : Nat)
    (hclean : cleanPath ("/players/" ++ n) = "/players/" ++ n) :
    ((serveAll (NewPlayerServer S empty) (List.replicate k (newPostWinRequest n))).ServeHTTP
        NewRecorder (newGetScoreRequest n)).2.Body = FormatInt (k : Int) ∧
    ((serveAll (NewPlayerServer S empty) (List.replicate k (newPostWinRequest n))).ServeHTTP
        NewRecorder (newGetScoreRequest n)).2.Code = (if k = 0 then 404 else 200) ∧
    (k = 0 →
      ((serveAll (NewPlayerServer S empty) (List.replicate k (newPostWinRequest n))).ServeHTTP
        NewRecorder (newGetScoreRequest n)).2.Body = "0") := by
  have hrep : List.replicate k (newPostWinRequest n)
      = (List.replicate k n).map newPostWinRequest := by simp
  have hall : ∀ m ∈ List.replicate k n, cleanPath ("/players/" ++ m) = "/players/" ++ m := by
    intro m hm
    rw [List.eq_of_mem_replicate hm]
    exact hclean
  obtain ⟨hst, hsto⟩ := serveAll_posts (NewPlayerServer S empty) (List.replicate k n) hall
  have hscore : (serveAll (NewPlayerServer S empty)
        (List.replicate k (newPostWinRequest n))).store.GetPlayerScore
      (serveAll (NewPlayerServer S empty) (List.replicate k (newPostWinRequest n))).state n
        = (k : Int) := by
    rw [hrep, hst, hsto]
    show S.GetPlayerScore (recordAll S empty (List.replicate k n)) n = (k : Int)
    rw [score_recordAll S empty hS]
    simp
  unfold newGetScoreRequest
  rw [serve_get _ _ n hclean, showScore_code, showScore_body, hscore]
  refine ⟨rfl, ?_, ?_⟩
  · simp
  · intro hk
    subst hk
    decide

/-- The instance of the integration test: three wins for `Pepper` against the
in-memory store, then status 200 and body `3`. -/
theorem wins_then_score_witness :
    cleanPath ("/players/" ++ "Pepper") = "/players/" ++ "Pepper" ∧
    (((serveAll (NewPlayerServer InMemoryPlayerStore NewInMemoryPlayerStore)
        (List.replicate 3 (newPostWinRequest "Pepper"))).ServeHTTP
        NewRecorder (newGetScoreRequest "Pepper")).2.Body = FormatInt ((3 : Nat) : Int) ∧
    ((serveAll (NewPlayerServer InMemoryPlayerStore NewInMemoryPlayerStore)
        (List.replicate 3 (newPostWinRequest "Pepper"))).ServeHTTP
        NewRecorder (newGetScoreRequest "Pepper")).2.Code = (if 3 = 0 then 404 else 200) ∧
    (3 = 0 →
      ((serveAll (NewPlayerServer InMemoryPlayerStore NewInMemoryPlayerStore)
        (List.replicate 3 (newPostWinRequest "Pepper"))).ServeHTTP
        NewRecorder (newGetScoreRequest "Pepper")).2.Body = "0")) ∧
    ((serveAll (NewPlayerServer InMemoryPlayerStore NewInMemoryPlayerStore)
        (List.replicate 3 (newPostWinRequest "Pepper"))).ServeHTTP
        NewRecorder (newGetScoreRequest "Pepper")).2.Body = "3" ∧
    ((serveAll (NewPlayerServer InMemoryPlayerStore NewInMemoryPlayerStore)
        (List.replicate 3 (newPostWinRequest "Pepper"))).ServeHTTP
        NewRecorder (newGetScoreRequest "Pepper")).2.Code = 200 :=
  ⟨by decide, wins_then_score InMemoryPlayerStore NewInMemoryPlayerStore inMemory_contract
    "Pepper" 3 (by decide), by decide, by decide⟩

/-- C4, the claim as stated fails for the name `/x`: the server answers the POST
for `/players//x` with the redirect 301 and makes no store call, and answers the
GET that follows with status 301 as well, not with status 200 and body `1`. -/
theorem wins_then_score_double_slash :
    newPostWinRequest "/x" = ⟨MethodPost, "/players//x"⟩ ∧
    ((NewPlayerServer InMemoryPlayerStore NewInMemoryPlayerStore).ServeHTTP NewRecorder
        (newPostWinRequest "/x")).2.Code = 301 ∧
    (serveAll (NewPlayerServer InMemoryPlayerStore NewInMemoryPlayerStore)
        (List.replicate 1 (newPostWinRequest "/x"))).calls = [] ∧
    (serveAll (NewPlayerServer InMemoryPlayerStore NewInMemoryPlayerStore)
        (List.replicate 1 (newPostWinRequest "/x"))).state = NewInMemoryPlayerStore ∧
    ((serveAll (NewPlayerServer InMemoryPlayerStore NewInMemoryPlayerStore)
        (List.replicate 1 (newPostWinRequest "/x"))).ServeHTTP
        NewRecorder (newGetScoreRequest "/x")).2.Code = 301 ∧
    ((serveAll (NewPlayerServer InMemoryPlayerStore NewInMemoryPlayerStore)
        (List.replicate 1 (newPostWinRequest "/x"))).ServeHTTP
        NewRecorder (newGetScoreRequest "/x")).2.Code ≠ 200 ∧
    ((serveAll (NewPlayerServer InMemoryPlayerStore NewInMemoryPlayerStore)
        (List.replicate 1 (newPostWinRequest "/x"))).ServeHTTP
        NewRecorder (newGetScoreRequest "/x")).2.Body ≠ FormatInt ((1 : Nat) : Int) := by
  decide

/-! ## Reading back what the encoder wrote -/

theorem pushChar_some (c : Char) (s r : List Char) :
    pushChar c (some (s, r)) = some (c :: s, r) := rfl

theorem readString_plain (c : Char) (tl : List Char) (h1 : c ≠ '"') (h2 : c ≠ '\\')
    (h3 : 32 ≤ c.toNat) : readString (c :: tl) = pushChar c (readString tl) := by
  have h4 : ¬ c.toNat < 32 := by omega
  rw [readString.eq_def]
  simp [h1, h2, h4]

theorem readString_short (e ch : Char) (tl : List Char) (h1 : e ≠ 'u')
    (h2 : unescape e = some ch) :
    readString ('\\' :: e :: tl) = pushChar ch (readString tl) := by
  rw [readString.eq_def]
  simp [h1, h2]

theorem readString_hex (a b x d ch : Char) (tl : List Char) (h : hex4 a b x d = some ch) :
    readString ('\\' :: 'u' :: a :: b :: x :: d :: tl) = pushChar ch (readString tl) := by
  rw [readString.eq_def]
  simp [h]

theorem hex4_low : ∀ n : Fin 128,
    hex4 '0' '0' (hexChar (n.val / 16)) (hexChar (n.val % 16)) = some (Char.ofNat n.val) := by
  decide

theorem hex4_low_char (c : Char) (h : c.toNat < 128) :
    hex4 '0' '0' (hexChar (c.toNat / 16)) (hexChar (c.toNat % 16)) = some c := by
  have h1 := hex4_low ⟨c.toNat, h⟩
  simpa using h1

/-- The reader undoes the escaping of one character. -/
theorem readString_escapeChar (c : Char) (tl : List Char) :
    readString (escapeChar c ++ tl) = pushChar c (readString tl) := by
  unfold escapeChar
  split_ifs with h1 h2 h3 h4 h5 h6 h7 h8 h9
  · simp only [htmlSafe, Bool.and_eq_true, decide_eq_true_eq] at h2
    simp only [ne_eq, decide_not, Bool.not_eq_eq_eq_not, Bool.not_true, decide_eq_false_iff_not]
      at h2
    exact readString_plain c tl h2.1.1.1.1.2 h2.1.1.1.2 h2.1.1.1.1.1
  · rcases h3 with h3 | h3 <;> subst h3 <;>
      exact readString_short _ _ tl (by decide) (by decide)
  · subst h4; exact readString_short _ _ tl (by decide) (by decide)
  · subst h5; exact readString_short _ _ tl (by decide) (by decide)
  · subst h6; exact readString_short _ _ tl (by decide) (by decide)
  · subst h7; exact readString_short _ _ tl (by decide) (by decide)
  · subst h8; exact readString_short _ _ tl (by decide) (by decide)
  · exact readString_hex _ _ _ _ c tl (hex4_low_char c h1)
  · rcases h9 with h9 | h9 <;> subst h9 <;>
      exact readString_hex _ _ _ _ _ tl (by decide)
  · have h10 : 128 ≤ c.toNat := by omega
    have hq : c ≠ '"' := by
      intro h; subst h; revert h10; decide
    have hb : c ≠ '\\' := by
      intro h; subst h; revert h10; decide
    exact readString_plain c tl hq hb (by omega)

/-- The reader gives back a string from its escaped form. -/
theorem readString_escapeChars (s rest : List Char) :
    readString (escapeChars s ++ '"' :: rest) = some (s, rest) := by
  induction s with
  | nil =>
    simp only [escapeChars, List.nil_append]
    rw [readString.eq_def]
    simp
  | cons c cs ih =>
    simp only [escapeChars, List.append_assoc]
    rw [readString_escapeChar, ih, pushChar_some]

/-! ### Numbers -/

/-- The characters of the ten digits: each is a decimal digit, has the value of
its digit, and only the digit zero is written `0`. -/
theorem digitChar_digit : ∀ k : Fin 10,
    isDigitChar (Nat.digitChar k.val) = true ∧ (Nat.digitChar k.val).toNat - 48 = k.val ∧
      (Nat.digitChar k.val ≠ '0' ∨ k.val = 0) := by
  decide

theorem toDigitsCore_step (f n : Nat) (acc : List Char) :
    Nat.toDigitsCore 10 (f + 1) n acc =
      if n / 10 = 0 then Nat.digitChar (n % 10) :: acc
      else Nat.toDigitsCore 10 f (n / 10) (Nat.digitChar (n % 10) :: acc) := by
  simp [Nat.toDigitsCore]

/-- With enough fuel the digits do not depend on the fuel, and they are put in
front of the accumulator. -/
theorem toDigitsCore_acc (n : Nat) : ∀ (f : Nat) (acc : List Char), n < f →
    Nat.toDigitsCore 10 f n acc = Nat.toDigits 10 n ++ acc := by
  induction n using Nat.strong_induction_on with
  | _ n ih =>
    intro f acc hf
    obtain ⟨f1, rfl⟩ : ∃ f1, f = f1 + 1 := ⟨f - 1, by omega⟩
    unfold Nat.toDigits
    rw [toDigitsCore_step, toDigitsCore_step]
    by_cases h : n / 10 = 0
    · simp [h]
    · have hlt : n / 10 < n := by omega
      rw [if_neg h, if_neg h, ih (n / 10) hlt f1 _ (by omega), ih (n / 10) hlt n _ hlt]
      simp

theorem toDigits_small (n : Nat) (h : n < 10) : Nat.toDigits 10 n = [Nat.digitChar n] := by
  unfold Nat.toDigits
  rw [toDigitsCore_step]
  have h1 : n / 10 = 0 := by omega
  have h2 : n % 10 = n := by omega
  simp [h1, h2]

theorem toDigits_large (n : Nat) (h : 10 ≤ n) :
    Nat.toDigits 10 n = Nat.toDigits 10 (n / 10) ++ [Nat.digitChar (n % 10)] := by
  have h1 : ¬ n / 10 = 0 := by omega
  have hlt : n / 10 < n := by omega
  conv_lhs => unfold Nat.toDigits
  rw [toDigitsCore_step, if_neg h1, toDigitsCore_acc (n / 10) n _ hlt]

theorem digitsValue_append (ds : List Char) (d : Char) :
    digitsValue (ds ++ [d]) = 10 * digitsValue ds + (d.toNat - 48) := by
  simp [digitsValue, List.foldl_append]

/-- The decimal text of a number is a run of digits. -/
theorem toDigits_digits (n : Nat) : ∀ c ∈ Nat.toDigits 10 n, isDigitChar c = true := by
  induction n using Nat.strong_induction_on with
  | _ n ih =>
    intro c hc
    by_cases h : n < 10
    · rw [toDigits_small n h] at hc
      simp only [List.mem_singleton] at hc
      rw [hc]
      exact (digitChar_digit ⟨n, h⟩).1
    · rw [toDigits_large n (by omega)] at hc
      simp only [List.mem_append, List.mem_singleton] at hc
      rcases hc with hc | hc
      · exact ih (n / 10) (by omega) c hc
      · rw [hc]
        exact (digitChar_digit ⟨n % 10, by omega⟩).1

/-- The decimal text of a number writes that number. -/
theorem toDigits_value (n : Nat) : digitsValue (Nat.toDigits 10 n) = n := by
  induction n using Nat.strong_induction_on with
  | _ n ih =>
    by_cases h : n < 10
    · rw [toDigits_small n h]
      have h1 := (digitChar_digit ⟨n, h⟩).2.1
      simp only at h1
      simp [digitsValue, h1]
    · rw [toDigits_large n (by omega), digitsValue_append, ih (n / 10) (by omega)]
      have h1 := (digitChar_digit ⟨n % 10, by omega⟩).2.1
      simp only at h1
      rw [h1]
      omega

theorem toDigits_ne_nil (n : Nat) : Nat.toDigits 10 n ≠ [] := by
  by_cases h : n < 10
  · rw [toDigits_small n h]; simp
  · rw [toDigits_large n (by omega)]; simp

/-- The decimal text of a positive number does not start with a zero. -/
theorem toDigits_head (n : Nat) (hn : 0 < n) : (Nat.toDigits 10 n).head? ≠ some '0' := by
  induction n using Nat.strong_induction_on with
  | _ n ih =>
    by_cases h : n < 10
    · rw [toDigits_small n h]
      have h1 := (digitChar_digit ⟨n, h⟩).2.2
      simp only at h1
      rcases h1 with h1 | h1
      · simpa using h1
      · omega
    · rw [toDigits_large n (by omega)]
      have h2 := ih (n / 10) (by omega) (by omega)
      have h3 := toDigits_ne_nil (n / 10)
      cases hd : Nat.toDigits 10 (n / 10) with
      | nil => exact absurd hd h3
      | cons a as =>
        rw [hd] at h2
        simpa using h2

theorem readDigits_run (ds : List Char) (c : Char) (rest : List Char)
    (hds : ∀ d ∈ ds, isDigitChar d = true) (hc : isDigitChar c = false) :
    readDigits (ds ++ c :: rest) = (ds, c :: rest) := by
  induction ds with
  | nil => simp [readDigits, hc]
  | cons d ds ih =>
    have hd := hds d (List.mem_cons_self d ds)
    have ih2 := ih (fun e he => hds e (List.mem_cons_of_mem d he))
    simp [readDigits, hd, ih2]

/-- The reader gives back a natural number from its decimal text. -/
theorem readNat_toDigits (n : Nat) (c : Char) (rest : List Char)
    (hc : isDigitChar c = false) :
    readNat (Nat.toDigits 10 n ++ c :: rest) = some (n, c :: rest) := by
  unfold readNat
  rw [readDigits_run _ c rest (toDigits_digits n) hc]
  simp only [toDigits_value]
  rw [if_neg (toDigits_ne_nil n)]
  by_cases hn : n = 0
  · subst hn
    simp [toDigits_small]
  · have h1 := toDigits_head n (by omega)
    simp [h1]

/-- The reader gives back an `int` from its decimal text. -/
theorem readInt_formatInt (i : Int) (c : Char) (rest : List Char)
    (hc : isDigitChar c = false) :
    readInt ((FormatInt i).data ++ c :: rest) = some (i, c :: rest) := by
  cases i with
  | ofNat n =>
    simp only [FormatInt]
    cases hd : Nat.toDigits 10 n with
    | nil => exact absurd hd (toDigits_ne_nil n)
    | cons a as =>
      have ha : isDigitChar a = true := toDigits_digits n a (by rw [hd]; simp)
      have hne : a ≠ '-' := by
        intro h; subst h; revert ha; decide
      simp only [List.cons_append, readInt, if_neg hne]
      have h2 := readNat_toDigits n c rest hc
      rw [hd] at h2
      simp only [List.cons_append] at h2
      rw [h2]
      rfl
  | negSucc n =>
    simp only [FormatInt, List.cons_append, readInt, if_true]
    rw [readNat_toDigits (n + 1) c rest hc]
    simp [Int.negSucc_eq]

/-! ### Players and leagues -/

theorem expect_append (lit rest : List Char) : expect lit (lit ++ rest) = some rest := by
  induction lit with
  | nil => cases rest <;> rfl
  | cons l ls ih => simp [expect, ih]

/-- The reader gives back a player from its JSON object. -/
theorem readPlayer_encodePlayer (p : Player) (rest : List Char) :
    readPlayer (encodePlayer p ++ rest) = some (p, rest) := by
  have h1 : encodePlayer p ++ rest =
      "\x7b\"Name\":\"".data ++ (escapeChars p.Name.data ++ '"' ::
        (",\"Wins\":".data ++ ((FormatInt p.Wins).data ++ '\x7d' :: rest))) := by
    simp [encodePlayer, appendString]
  have hc : isDigitChar '\x7d' = false := by decide
  have h2 : expect ['\x7d'] ('\x7d' :: rest) = some rest := by simp [expect]
  rw [h1]
  unfold readPlayer
  rw [expect_append]
  simp only [Option.some_bind, readString_escapeChars, expect_append,
    readInt_formatInt _ _ _ hc, h2, Option.map_some']

theorem encodePlayer_head (p : Player) :
    ∃ tl, encodePlayer p = '\x7b' :: tl := by
  exact ⟨_, rfl⟩

theorem encodeElems_cons (p : Player) (ps : List Player) :
    ∃ tl, encodeElems (p :: ps) = '\x7b' :: tl := by
  cases ps with
  | nil => exact encodePlayer_head p
  | cons q qs =>
    obtain ⟨tl, h⟩ := encodePlayer_head p
    exact ⟨tl ++ ',' :: encodeElems (q :: qs), by simp [encodeElems, h]⟩

/-- With one unit of fuel for each element, the reader gives back the elements of
an array. -/
theorem readElems_encodeElems (ps : List Player) : ∀ (p : Player) (fuel : Nat)
    (rest : List Char), ps.length < fuel →
    readElems fuel (encodeElems (p :: ps) ++ ']' :: rest) = some (p :: ps, rest) := by
  induction ps with
  | nil =>
    intro p fuel rest hf
    obtain ⟨f1, rfl⟩ : ∃ f1, fuel = f1 + 1 := ⟨fuel - 1, by simp at hf; omega⟩
    simp [readElems, encodeElems, readPlayer_encodePlayer]
  | cons q qs ih =>
    intro p fuel rest hf
    obtain ⟨f1, rfl⟩ : ∃ f1, fuel = f1 + 1 := ⟨fuel - 1, by simp at hf; omega⟩
    have hf1 : qs.length < f1 := by simp at hf; omega
    have h1 : encodeElems (p :: q :: qs) ++ ']' :: rest =
        encodePlayer p ++ (',' :: (encodeElems (q :: qs) ++ ']' :: rest)) := by
      simp [encodeElems]
    rw [h1]
    simp [readElems, readPlayer_encodePlayer, ih q f1 rest hf1]

theorem length_le_encodeElems (ps : List Player) : ps.length ≤ (encodeElems ps).length := by
  induction ps with
  | nil => simp [encodeElems]
  | cons p ps ih =>
    cases ps with
    | nil =>
      obtain ⟨tl, h⟩ := encodePlayer_head p
      simp [encodeElems, h]
    | cons q qs =>
      obtain ⟨tl, h⟩ := encodePlayer_head p
      simp only [encodeElems, List.length_cons, List.length_append] at ih ⊢
      omega

/-- The reader gives back a league from its JSON array. -/
theorem readArray_marshal (ps : List Player) (rest : List Char) :
    readArray (Marshal (some ps) ++ rest) = some (ps, rest) := by
  cases ps with
  | nil => simp [Marshal, encodeElems, readArray]
  | cons p ps =>
    obtain ⟨tl, h⟩ := encodeElems_cons p ps
    have hlen := length_le_encodeElems (p :: ps)
    have h1 : Marshal (some (p :: ps)) ++ rest =
        '[' :: (encodeElems (p :: ps) ++ ']' :: rest) := by
      simp [Marshal]
    rw [h1]
    have h2 : readElems (encodeElems (p :: ps) ++ ']' :: rest).length
        (encodeElems (p :: ps) ++ ']' :: rest) = some (p :: ps, rest) := by
      apply readElems_encodeElems
      simp only [List.length_append, List.length_cons] at hlen ⊢
      omega
    rw [h] at h2 ⊢
    simp only [List.cons_append, readArray, if_true]
    have hne : ('\x7b' : Char) ≠ ']' := by decide
    rw [if_neg hne]
    exact h2

/-- Reading the body that `Encode` wrote gives back the league, nil or not, with
its elements in their order. -/
theorem getLeagueFromResponse_encode (league : Option (List Player)) :
    getLeagueFromResponse (String.mk (Marshal league ++ ['\n'])) = some league := by
  cases league with
  | none =>
    unfold getLeagueFromResponse
    rw [if_pos (by decide)]
  | some ps =>
    unfold getLeagueFromResponse
    have hne : (String.mk (Marshal (some ps) ++ ['\n'])).data ≠ "null\n".data := by
      simp [Marshal]
    rw [if_neg hne]
    simp [readArray_marshal]

/-! ## The league over HTTP -/

theorem encodeElems_intercalate (ps : List Player) :
    encodeElems ps = List.intercalate [','] (ps.map encodePlayer) := by
  induction ps with
  | nil => rfl
  | cons p ps ih =>
    cases ps with
    | nil => simp [encodeElems, List.intercalate]
    | cons q qs =>
      rw [encodeElems, ih]
      simp [List.intercalate]

/-- C5, as amended: against a store that keeps the contract and starts empty,
after POST requests for `/players/n`, one for each `n` of `names` in turn and each
for a clean path, the body of the GET `/league` response reads back as exactly the
league that `GetLeague()` returns, in its order; that league has no two entries
with the same name, and its entries are exactly the posted names, each with the
number of POST requests for it as its wins. -/
theorem league_after_posts {σ : Type} (S : PlayerStore σ) (empty : σ)
    (hS : StoreContract S empty) (names : List String)
    (hclean : ∀ n ∈ names, cleanPath ("/players/" ++ n) = "/players/" ++ n) :
    getLeagueFromResponse
        ((serveAll (NewPlayerServer S empty) (names.map newPostWinRequest)).ServeHTTP
          NewRecorder newLeagueRequest).2.Body
      = some (S.GetLeague (serveAll (NewPlayerServer S empty)
          (names.map newPostWinRequest)).state) ∧
    ((elems (S.GetLeague (serveAll (NewPlayerServer S empty)
        (names.map newPostWinRequest)).state)).map Player.Name).Nodup ∧
    (∀ q, q ∈ elems (S.GetLeague (serveAll (NewPlayerServer S empty)
        (names.map newPostWinRequest)).state) ↔
          (q.Name ∈ names ∧ q.Wins = (names.count q.Name : Int))) := by
  obtain ⟨hst, hsto⟩ := serveAll_posts (NewPlayerServer S empty) names hclean
  have hst2 : (serveAll (NewPlayerServer S empty) (names.map newPostWinRequest)).state
      = recordAll S empty names := hst
  have hsto2 : (serveAll (NewPlayerServer S empty) (names.map newPostWinRequest)).store = S :=
    hsto
  refine ⟨?_, ?_, ?_⟩
  · unfold newLeagueRequest
    rw [serve_league, leagueHandler_fresh]
    simp only [hsto2]
    exact getLeagueFromResponse_encode _
  · rw [hst2]
    exact hS.league_nodup names
  · intro q
    rw [hst2, hS.league_mem names q, score_recordAll S empty hS]

/-- The instance of the integration test: three wins for `Pepper` against the
in-memory store, then the league with the one entry `Pepper` with 3 wins. -/
theorem league_after_posts_witness :
    (∀ n ∈ ["Pepper", "Pepper", "Pepper"], cleanPath ("/players/" ++ n) = "/players/" ++ n) ∧
    (getLeagueFromResponse
        ((serveAll (NewPlayerServer InMemoryPlayerStore NewInMemoryPlayerStore)
          (["Pepper", "Pepper", "Pepper"].map newPostWinRequest)).ServeHTTP
          NewRecorder newLeagueRequest).2.Body
      = some (InMemoryPlayerStore.GetLeague (serveAll
          (NewPlayerServer InMemoryPlayerStore NewInMemoryPlayerStore)
          (["Pepper", "Pepper", "Pepper"].map newPostWinRequest)).state) ∧
    ((elems (InMemoryPlayerStore.GetLeague (serveAll
        (NewPlayerServer InMemoryPlayerStore NewInMemoryPlayerStore)
        (["Pepper", "Pepper", "Pepper"].map newPostWinRequest)).state)).map Player.Name).Nodup ∧
    (∀ q, q ∈ elems (InMemoryPlayerStore.GetLeague (serveAll
        (NewPlayerServer InMemoryPlayerStore NewInMemoryPlayerStore)
        (["Pepper", "Pepper", "Pepper"].map newPostWinRequest)).state) ↔
          (q.Name ∈ ["Pepper", "Pepper", "Pepper"] ∧
            q.Wins = ((["Pepper", "Pepper", "Pepper"].count q.Name : Nat) : Int)))) ∧
    InMemoryPlayerStore.GetLeague (serveAll
        (NewPlayerServer InMemoryPlayerStore NewInMemoryPlayerStore)
        (["Pepper", "Pepper", "Pepper"].map newPostWinRequest)).state
      = some [⟨"Pepper", 3⟩] :=
  ⟨by decide,
   league_after_posts InMemoryPlayerStore NewInMemoryPlayerStore inMemory_contract
    ["Pepper", "Pepper", "Pepper"] (by decide),
   by decide⟩

/-- C5, the claim as stated fails for the posted name `/x`: the server answers
the POST for `/players//x` with the redirect 301 and makes no store call, so
nothing is recorded and the league served afterwards has no entry for that name. -/
theorem league_after_double_slash :
    newPostWinRequest "/x" = ⟨MethodPost, "/players//x"⟩ ∧
    ((NewPlayerServer InMemoryPlayerStore NewInMemoryPlayerStore).ServeHTTP NewRecorder
        (newPostWinRequest "/x")).2.Code = 301 ∧
    (serveAll (NewPlayerServer InMemoryPlayerStore NewInMemoryPlayerStore)
        (["/x"].map newPostWinRequest)).calls = [] ∧
    (serveAll (NewPlayerServer InMemoryPlayerStore NewInMemoryPlayerStore)
        (["/x"].map newPostWinRequest)).state = NewInMemoryPlayerStore ∧
    (⟨"/x", 1⟩ : Player) ∉ elems (InMemoryPlayerStore.GetLeague (serveAll
        (NewPlayerServer InMemoryPlayerStore NewInMemoryPlayerStore)
        (["/x"].map newPostWinRequest)).state) ∧
    getLeagueFromResponse
        ((serveAll (NewPlayerServer InMemoryPlayerStore NewInMemoryPlayerStore)
          (["/x"].map newPostWinRequest)).ServeHTTP NewRecorder newLeagueRequest).2.Body
      ≠ some (some [⟨"/x", 1⟩]) := by
  decide

/-- C6, as amended: the body of the `/league` response is `null` for a nil
league; for any other league it is a JSON array with one object for each player,
in the order of the store, and the object has exactly the two fields `Name`, a
JSON string, and `Wins`, a decimal integer, which read back as the player. -/
theorem league_body_shape {σ : Type} (p : PlayerServer σ) (method : String) :
    (p.ServeHTTP NewRecorder ⟨method, "/league"⟩).2.Body =
      (match p.store.GetLeague p.state with
       | none => "null\n"
       | some ps =>
         String.mk ('[' :: (List.intercalate [','] (ps.map encodePlayer) ++ [']', '\n']))) ∧
    (∀ q : Player, encodePlayer q =
      "\x7b\"Name\":".data ++ appendString q.Name ++ ",\"Wins\":".data ++
        (FormatInt q.Wins).data ++ "\x7d".data) ∧
    (∀ q : Player, readPlayer (encodePlayer q) = some (q, [])) := by
  refine ⟨?_, fun _ => rfl, ?_⟩
  · rw [serve_league, leagueHandler_fresh]
    cases h : p.store.GetLeague p.state with
    | none => rfl
    | some ps =>
      simp [Marshal, encodeElems_intercalate]
  · intro q
    have h := readPlayer_encodePlayer q []
    simpa using h

/-- C6, the claim as stated fails: the object written for a player has the keys
`Name` and `Wins`, not `name` and `wins`; and for a store whose league is the nil
slice the body is `null`, which is no JSON array. -/
theorem league_body_keys :
    ((NewPlayerServer (fixedStore (some [⟨"Pepper", 3⟩])) ()).ServeHTTP NewRecorder
        newLeagueRequest).2.Body = "[\x7b\"Name\":\"Pepper\",\"Wins\":3\x7d]\n" ∧
    ((NewPlayerServer (fixedStore (some [⟨"Pepper", 3⟩])) ()).ServeHTTP NewRecorder
        newLeagueRequest).2.Body ≠ "[\x7b\"name\":\"Pepper\",\"wins\":3\x7d]\n" ∧
    ((NewPlayerServer (fixedStore none) ()).ServeHTTP NewRecorder
        newLeagueRequest).2.Body = "null\n" := by
  decide

end JsonRouting
